import Mathlib

/-
Verification of the revision state machine and atomic publication mechanism
implemented in src/rsync.rs of krill-sync.

The Rust code is shallowly embedded: the ledger (RsyncDirState) and its
operations become pure Lean functions; the filesystem effects of the code
(directory creation, renames, symlinks, the JSON state file) are modelled by
explicit state passing over a FileSystem value.  Every path the code touches
lives directly under the configured rsync directory, so paths are modelled by
the EntryName type naming entries of that directory.  Fallible operations
return an FsResult carrying the filesystem as it stands at success or failure,
mirroring Rust functions that mutate the real disk and return Result.
-/

set_option autoImplicit false

namespace KrillSync

/-- Modelled from the spec: the `util::Time` type (the `util` module is not
under src/).  The spec says all now/since values come from a single injectable
clock; time is modelled as integer seconds, and the current clock value is
passed explicitly to the operations that read the clock. -/
abbrev Time := Int

/-- Model of `Time::seconds_ago(secs)`: the clock value `secs` seconds before
the explicitly passed current time. -/
def Time.seconds_ago (now : Time) (secs : Int) : Time := now - secs

/-- Model of `RsyncRevision` from src/rsync.rs: a session id plus serial.
The session id is a 128-bit opaque token (Uuid) in the code; it is modelled as
a natural number with equality only. -/
structure RsyncRevision where
  session_id : Nat
  serial : Nat
deriving DecidableEq, Repr

/-- Model of `RsyncRevision::dir_name`: the directory name
session_<session_id>_serial_<serial> derived from the revision. -/
def RsyncRevision.dir_name (r : RsyncRevision) : String :=
  "session_" ++ toString r.session_id ++ "_serial_" ++ toString r.serial

/-- Model of `DeprecatedRsyncRevision` from src/rsync.rs: a revision together
with the time at which it stopped being current. -/
structure DeprecatedRsyncRevision where
  since : Time
  revision : RsyncRevision
deriving DecidableEq, Repr

/-- Model of `RsyncDirState` from src/rsync.rs: the durable ledger holding the
current revision (if any) and the list of deprecated revisions. -/
structure RsyncDirState where
  current : Option RsyncRevision
  old : List DeprecatedRsyncRevision
deriving DecidableEq, Repr

/-- Model of the `Config` fields consumed by src/rsync.rs: the swap strategy
selector and the retention duration in seconds.  The path-valued fields
(rsync_dir, rsync_dir_current, rsync_state_path, the temporary symlink name)
are modelled structurally by the EntryName type below. -/
structure Config where
  rsync_dir_use_symlinks : Bool
  cleanup_after : Int
deriving DecidableEq, Repr

/-- Names of entries directly under the configured rsync directory: one
directory per revision (named by RsyncRevision::dir_name, so keyed here by the
revision value), the stable path current (config.rsync_dir_current()), and the
temporary name current.tmp used by the symlink strategy. The ledger state file
is modelled separately as the stateFile field of FileSystem, since it is a
co-located file never named by these operations except via recover/persist. -/
inductive EntryName where
  | revision (r : RsyncRevision)
  | current
  | currentTmp
deriving DecidableEq, Repr

/-- A JSON value, the target of serde serialization of the ledger.  The
persist/recover pair is modelled at the JSON-value level: serde_json rendering
of a value to text and parsing it back is external library code, assumed
faithful; what the repository controls is the mapping between RsyncDirState
and the JSON structure, which is modelled below. -/
inductive Json where
  | null
  | num (n : Int)
  | str (s : String)
  | arr (xs : List Json)
  | obj (fields : List (String × Json))

/-- An entry in the rsync directory: a real directory holding files (a map
from the relative path of a file to its bytes), or a symbolic link holding a
target name. -/
inductive FsEntry where
  | dir (files : List (String × List Nat))
  | symlink (target : String)
deriving DecidableEq, Repr

/-- The modelled filesystem: the association list of entries under the rsync
directory, plus the ledger state file (none when the file does not exist,
otherwise the JSON value it holds). -/
structure FileSystem where
  entries : List (EntryName × FsEntry)
  stateFile : Option Json

/-- Look up an entry by name in an association list of directory entries. -/
def fsGet : List (EntryName × FsEntry) → EntryName → Option FsEntry
  | [], _ => none
  | (k, v) :: rest, n => if k = n then some v else fsGet rest n

/-- Remove an entry by name from an association list of directory entries. -/
def fsRemove : List (EntryName × FsEntry) → EntryName → List (EntryName × FsEntry)
  | [], _ => []
  | (k, v) :: rest, n => if k = n then fsRemove rest n else (k, v) :: fsRemove rest n

/-- Set an entry, replacing any previous entry of the same name. -/
def fsSet (l : List (EntryName × FsEntry)) (n : EntryName) (v : FsEntry) :
    List (EntryName × FsEntry) :=
  (n, v) :: fsRemove l n

/-- Model of Path::exists for an entry under the rsync directory. -/
def pathExists (fs : FileSystem) (n : EntryName) : Bool :=
  (fsGet fs.entries n).isSome

/-- Remove an entry from the filesystem; models both std::fs::remove_file on
a symlink and std::fs::remove_dir_all on a directory (the code only calls
them after checking existence). -/
def removeEntry (fs : FileSystem) (n : EntryName) : FileSystem :=
  { fs with entries := fsRemove fs.entries n }

/-- Set an entry in the filesystem. -/
def setEntry (fs : FileSystem) (n : EntryName) (v : FsEntry) : FileSystem :=
  { fs with entries := fsSet fs.entries n v }

/-- Result of a fallible filesystem operation: like Rust code that mutates the
disk and returns Result, it carries the filesystem as it stands both at
success and at failure. -/
inductive FsResult (α : Type) where
  | ok (a : α) (fs : FileSystem)
  | error (e : String) (fs : FileSystem)

/-- Model of std::fs::rename: fails when the source does not exist, or when
the destination is an existing directory (POSIX rename of a directory onto a
non-empty directory fails); otherwise moves the entry, replacing a plain file
or symlink at the destination atomically. -/
def renameEntry (src dst : EntryName) (fs : FileSystem) : FsResult Unit :=
  match fsGet fs.entries src with
  | none => .error "rename: source does not exist" fs
  | some e =>
    match fsGet fs.entries dst with
    | some (.dir _) => .error "rename: destination directory exists" fs
    | _ => .ok () (setEntry (removeEntry fs src) dst e)

/-- Look up a field of a JSON object by name. -/
def lookupField : List (String × Json) → String → Option Json
  | [], _ => none
  | (k, v) :: rest, key => if k = key then some v else lookupField rest key

/-- Serialization of RsyncRevision to JSON, modelling the serde derive on the
struct.  Modelled from the spec for the session id: util::ser_uuid (the util
module is not under src/) serializes the opaque 128-bit session token in a
stable form that, per the spec, must round-trip exactly; the token value is
emitted as a JSON number. -/
def RsyncRevision.toJson (r : RsyncRevision) : Json :=
  .obj [("session_id", .num (r.session_id : Int)), ("serial", .num (r.serial : Int))]

/-- Deserialization of RsyncRevision from JSON, modelling the serde derive
together with util::de_uuid (spec-modelled, see RsyncRevision.toJson). -/
def RsyncRevision.fromJson : Json → Except String RsyncRevision
  | .obj fields =>
    match lookupField fields "session_id", lookupField fields "serial" with
    | some (.num s), some (.num n) =>
      if 0 ≤ s ∧ 0 ≤ n then .ok ⟨s.toNat, n.toNat⟩
      else .error "cannot deserialize revision"
    | _, _ => .error "cannot deserialize revision"
  | _ => .error "cannot deserialize revision"

/-- Serialization of DeprecatedRsyncRevision to JSON, modelling the serde
derive; the since timestamp is a JSON number of seconds. -/
def DeprecatedRsyncRevision.toJson (d : DeprecatedRsyncRevision) : Json :=
  .obj [("since", .num d.since), ("revision", d.revision.toJson)]

/-- Deserialization of DeprecatedRsyncRevision from JSON. -/
def DeprecatedRsyncRevision.fromJson : Json → Except String DeprecatedRsyncRevision
  | .obj fields =>
    match lookupField fields "since", lookupField fields "revision" with
    | some (.num t), some rj =>
      match RsyncRevision.fromJson rj with
      | .ok r => .ok ⟨t, r⟩
      | .error e => .error e
    | _, _ => .error "cannot deserialize deprecated revision"
  | _ => .error "cannot deserialize deprecated revision"

/-- Deserialization of the old list from the elements of a JSON array. -/
def decodeOld : List Json → Except String (List DeprecatedRsyncRevision)
  | [] => .ok []
  | j :: rest =>
    match DeprecatedRsyncRevision.fromJson j, decodeOld rest with
    | .ok d, .ok ds => .ok (d :: ds)
    | .error e, _ => .error e
    | .ok _, .error e => .error e

/-- Deserialization of the optional current revision: serde maps None to JSON
null and Some to the revision object. -/
def decodeCurrent : Json → Except String (Option RsyncRevision)
  | .null => .ok none
  | j =>
    match RsyncRevision.fromJson j with
    | .ok r => .ok (some r)
    | .error e => .error e

/-- Serialization of the ledger to JSON, modelling the serde derive on
RsyncDirState. -/
def RsyncDirState.toJson (st : RsyncDirState) : Json :=
  .obj
    [ ("current", match st.current with | none => .null | some r => r.toJson)
    , ("old", .arr (st.old.map DeprecatedRsyncRevision.toJson)) ]

/-- Deserialization of the ledger from JSON. -/
def RsyncDirState.fromJson : Json → Except String RsyncDirState
  | .obj fields =>
    match lookupField fields "current", lookupField fields "old" with
    | some cj, some (.arr olds) =>
      match decodeCurrent cj, decodeOld olds with
      | .ok c, .ok ds => .ok ⟨c, ds⟩
      | .error e, _ => .error e
      | .ok _, .error e => .error e
    | _, _ => .error "cannot deserialize state"
  | _ => .error "cannot deserialize state"

/-- Model of RsyncDirState::recover from src/rsync.rs: when the state file
exists its JSON content is deserialized (a failure there is returned as an
error); when it does not exist, the blank ledger is returned. -/
def RsyncDirState.recover (fs : FileSystem) : Except String RsyncDirState :=
  match fs.stateFile with
  | some j => RsyncDirState.fromJson j
  | none => .ok { current := none, old := [] }

/-- Model of RsyncDirState::persist from src/rsync.rs: serializes the ledger
and writes it to the state file location, overwriting previous content.  The
underlying write primitive (file_ops::write_buf) is an external collaborator
the spec assumes reliable, so persist is modelled as infallible. -/
def RsyncDirState.persist (st : RsyncDirState) (fs : FileSystem) : FileSystem :=
  { fs with stateFile := some st.toJson }

/-- Model of RsyncDirState::update_current from src/rsync.rs: replaces
current with the given revision (std::mem::replace) and, when a previous
current existed, pushes it onto old deprecated at the current clock value
(RsyncRevision::deprecate uses Time::now, here the explicit now). -/
def RsyncDirState.update_current (st : RsyncDirState) (current : RsyncRevision)
    (now : Time) : RsyncDirState :=
  match st.current with
  | some existing => { current := some current, old := st.old ++ [⟨now, existing⟩] }
  | none => { current := some current, old := st.old }

/-- The removal loop of RsyncDirState::clean_old: for each deprecated entry of
the given (already filtered) list whose directory still exists, remove that
directory.  Whether a removal attempt succeeds is an environment choice, so an
oracle removeFails says which directory removals fail with an I/O error; an
entry whose directory does not exist is skipped. -/
def removeOldDirs (removeFails : RsyncRevision → Bool) :
    List DeprecatedRsyncRevision → FileSystem → FsResult Unit
  | [], fs => .ok () fs
  | d :: rest, fs =>
    if pathExists fs (.revision d.revision) then
      if removeFails d.revision then
        .error "could not remove rsync dir for old revision" fs
      else
        removeOldDirs removeFails rest (removeEntry fs (.revision d.revision))
    else
      removeOldDirs removeFails rest fs

/-- Model of RsyncDirState::clean_old from src/rsync.rs: computes the cutoff
clean_before = Time::seconds_ago(config.cleanup_after), removes the directory
of every old entry with since < clean_before (skipping directories that no
longer exist, failing the whole call on a removal error before old is
touched), then retains in old exactly the entries with since > clean_before. -/
def RsyncDirState.clean_old (st : RsyncDirState) (config : Config) (now : Time)
    (removeFails : RsyncRevision → Bool) (fs : FileSystem) : FsResult RsyncDirState :=
  let clean_before := Time.seconds_ago now config.cleanup_after
  match removeOldDirs removeFails
      (st.old.filter fun deprecated => decide (deprecated.since < clean_before)) fs with
  | .error e fs1 => .error e fs1
  | .ok () fs1 =>
    .ok { st with old := st.old.filter fun deprecated => decide (deprecated.since > clean_before) }
      fs1

/-- Model of the rpki uri::Rsync type (external collaborator): only its path
component, already stripped of scheme, authority and module, is consumed. -/
structure RsyncUri where
  path : String
deriving DecidableEq, Repr

/-- Model of rrdp::CurrentObject (external collaborator): a target URI plus
payload bytes. -/
structure CurrentObject where
  uri : RsyncUri
  data : List Nat
deriving DecidableEq, Repr

/-- Model of make_rsync_repo_path from src/rsync.rs: the URI path, with the
module already dropped, taken as the relative filesystem path. -/
def make_rsync_repo_path (uri : RsyncUri) : String := uri.path

/-- Model of file_ops::write_buf for a file inside a revision directory
(external collaborator, assumed reliable): creates the parent directory as
needed and writes the bytes under the relative path. -/
def writeBuf (fs : FileSystem) (rev : RsyncRevision) (relPath : String)
    (data : List Nat) : FileSystem :=
  match fsGet fs.entries (.revision rev) with
  | some (.dir files) =>
    setEntry fs (.revision rev) (.dir ((relPath, data) :: files.filter fun f => f.1 ≠ relPath))
  | _ => setEntry fs (.revision rev) (.dir [(relPath, data)])

/-- Model of write_rsync_content from src/rsync.rs: writes each element of
the snapshot under the new revision directory (out_path is the revision's own
path, so the directory is keyed by the revision).  With no elements, nothing
is written and no directory is created. -/
def write_rsync_content (out : RsyncRevision) (elements : List CurrentObject)
    (fs : FileSystem) : FileSystem :=
  elements.foldl
    (fun acc element => writeBuf acc out (make_rsync_repo_path element.uri) element.data) fs

/-- The first step of symlink_current_to_new_revision_dir from src/rsync.rs:
when a lingering temporary symlink exists from a prior crashed attempt,
remove it (std::fs::remove_file); otherwise leave the filesystem as is. -/
def removeLingering (fs : FileSystem) : FileSystem :=
  match pathExists fs .currentTmp with
  | true => removeEntry fs .currentTmp
  | false => fs

/-- Model of symlink_current_to_new_revision_dir from src/rsync.rs: removes a
lingering temporary symlink if present, creates a fresh symlink at the
temporary name targeting the new revision's directory name (the symlink
syscall fails when the temporary name still exists), then renames the
temporary symlink onto the stable current path. -/
def symlink_current_to_new_revision_dir (new_revision : RsyncRevision)
    (fs : FileSystem) : FsResult Unit :=
  match fsGet (removeLingering fs).entries .currentTmp with
  | some _ => .error "could not create temporary symlink" (removeLingering fs)
  | none =>
    renameEntry .currentTmp .current
      (setEntry (removeLingering fs) .currentTmp (.symlink new_revision.dir_name))

/-- The first step of rename_new_revision_dir_to_current from src/rsync.rs:
when the ledger records a previous current revision and a directory exists at
the stable current path, rename that directory to the previous revision's own
path; otherwise do nothing. -/
def backupCurrentDir (rsync_state : RsyncDirState) (fs : FileSystem) : FsResult Unit :=
  match rsync_state.current with
  | some current =>
    match pathExists fs .current with
    | true => renameEntry .current (.revision current) fs
    | false => .ok () fs
  | none => .ok () fs

/-- Model of rename_new_revision_dir_to_current from src/rsync.rs: first the
backup step (backupCurrentDir), and only after it succeeded the rename of the
new revision's directory onto the stable current path. -/
def rename_new_revision_dir_to_current (new_revision : RsyncRevision)
    (rsync_state : RsyncDirState) (fs : FileSystem) : FsResult Unit :=
  match backupCurrentDir rsync_state fs with
  | .error e fs1 => .error e fs1
  | .ok () fs1 => renameEntry (.revision new_revision) .current fs1

/-- The changed branch of update_from_rrdp_state from src/rsync.rs: the
configured publication switch applied after materializing the content. -/
def publishSwitch (new_revision : RsyncRevision) (rsync_state : RsyncDirState)
    (config : Config) (fs1 : FileSystem) : FsResult Unit :=
  match config.rsync_dir_use_symlinks with
  | true => symlink_current_to_new_revision_dir new_revision fs1
  | false => rename_new_revision_dir_to_current new_revision rsync_state fs1

/-- The body of the if changed branch of update_from_rrdp_state from
src/rsync.rs: materialize the content into the new revision's directory,
perform the configured publication switch, and on success update the ledger's
current revision. -/
def updateStep (new_revision : RsyncRevision) (elements : List CurrentObject)
    (config : Config) (rsync_state : RsyncDirState) (now : Time)
    (fs : FileSystem) : FsResult RsyncDirState :=
  match publishSwitch new_revision rsync_state config
      (write_rsync_content new_revision elements fs) with
  | .error e fs2 => .error e fs2
  | .ok () fs2 => .ok (rsync_state.update_current new_revision now) fs2

/-- Model of update_from_rrdp_state from src/rsync.rs, the orchestrator of one
cycle: recover the ledger; when changed, materialize the content, perform the
configured publication switch and update current (updateStep); in every
branch, prune old revisions and then persist the ledger.  The session id,
serial and elements stand for the fields read off the RrdpState collaborator;
now and removeFails are the clock and the removal-failure oracle.  The final
ledger value is returned alongside the filesystem (the Rust function returns
unit, but the same value is observable in the persisted state file). -/
def update_from_rrdp_state (session_id : Nat) (serial : Nat)
    (elements : List CurrentObject) (changed : Bool) (config : Config)
    (now : Time) (removeFails : RsyncRevision → Bool) (fs : FileSystem) :
    FsResult RsyncDirState :=
  match RsyncDirState.recover fs with
  | .error e => .error e fs
  | .ok rsync_state =>
    match (match changed with
      | true => updateStep ⟨session_id, serial⟩ elements config rsync_state now fs
      | false => .ok rsync_state fs) with
    | .error e fs2 => .error e fs2
    | .ok st1 fs2 =>
      match st1.clean_old config now removeFails fs2 with
      | .error e fs3 => .error e fs3
      | .ok st2 fs3 => .ok st2 (st2.persist fs3)

/-- The ledger invariant stated by the spec: a revision identity appears in
old at most once, and never simultaneously equals current. -/
def Invariant (st : RsyncDirState) : Prop :=
  (st.old.map DeprecatedRsyncRevision.revision).Nodup ∧
    ∀ d ∈ st.old, st.current ≠ some d.revision

instance (st : RsyncDirState) : Decidable (Invariant st) :=
  inferInstanceAs (Decidable ((st.old.map DeprecatedRsyncRevision.revision).Nodup ∧
    ∀ d ∈ st.old, st.current ≠ some d.revision))

theorem fsGet_fsRemove (l : List (EntryName × FsEntry)) (n m : EntryName) :
    fsGet (fsRemove l n) m = if n = m then none else fsGet l m := by
  induction l with
  | nil => simp [fsRemove, fsGet]
  | cons kv rest ih =>
    obtain ⟨k, v⟩ := kv
    by_cases h1 : k = n <;> by_cases h2 : n = m <;>
      simp_all [fsRemove, fsGet]

theorem fsGet_fsSet (l : List (EntryName × FsEntry)) (n : EntryName) (v : FsEntry)
    (m : EntryName) :
    fsGet (fsSet l n v) m = if n = m then some v else fsGet l m := by
  by_cases h : n = m <;> simp [fsSet, fsGet, fsGet_fsRemove, h]

theorem fsGet_setEntry (fs : FileSystem) (n : EntryName) (v : FsEntry) (m : EntryName) :
    fsGet (setEntry fs n v).entries m = if n = m then some v else fsGet fs.entries m := by
  simp [setEntry, fsGet_fsSet]

theorem fsGet_removeEntry (fs : FileSystem) (n m : EntryName) :
    fsGet (removeEntry fs n).entries m = if n = m then none else fsGet fs.entries m := by
  simp [removeEntry, fsGet_fsRemove]

theorem stateFile_setEntry (fs : FileSystem) (n : EntryName) (v : FsEntry) :
    (setEntry fs n v).stateFile = fs.stateFile := rfl

theorem stateFile_removeEntry (fs : FileSystem) (n : EntryName) :
    (removeEntry fs n).stateFile = fs.stateFile := rfl

theorem revision_fromJson_toJson (r : RsyncRevision) :
    RsyncRevision.fromJson r.toJson = .ok r := by
  simp [RsyncRevision.toJson, RsyncRevision.fromJson, lookupField]

theorem deprecated_fromJson_toJson (d : DeprecatedRsyncRevision) :
    DeprecatedRsyncRevision.fromJson d.toJson = .ok d := by
  simp [DeprecatedRsyncRevision.toJson, DeprecatedRsyncRevision.fromJson, lookupField,
    revision_fromJson_toJson]

theorem decodeOld_map (l : List DeprecatedRsyncRevision) :
    decodeOld (l.map DeprecatedRsyncRevision.toJson) = .ok l := by
  induction l with
  | nil => simp [decodeOld]
  | cons d rest ih => simp [decodeOld, deprecated_fromJson_toJson, ih]

theorem state_fromJson_toJson (st : RsyncDirState) :
    RsyncDirState.fromJson st.toJson = .ok st := by
  obtain ⟨c, l⟩ := st
  cases c with
  | none =>
    simp [RsyncDirState.toJson, RsyncDirState.fromJson, lookupField, decodeCurrent, decodeOld_map]
  | some r =>
    have h := revision_fromJson_toJson r
    simp only [RsyncRevision.toJson] at h
    simp [RsyncDirState.toJson, RsyncDirState.fromJson, lookupField, decodeCurrent,
      decodeOld_map, RsyncRevision.toJson, h]

theorem pathExists_false_get (fs : FileSystem) (n : EntryName)
    (h : pathExists fs n = false) : fsGet fs.entries n = none := by
  cases hfs : fsGet fs.entries n with
  | none => rfl
  | some v => simp [pathExists, hfs] at h

theorem removeOldDirs_all_ok (l : List DeprecatedRsyncRevision) (fs : FileSystem) :
    ∃ fs', removeOldDirs (fun _ => false) l fs = .ok () fs' ∧
      fs'.stateFile = fs.stateFile ∧
      ∀ n, fsGet fs'.entries n =
        if n ∈ l.map (fun d => EntryName.revision d.revision) then none
        else fsGet fs.entries n := by
  induction l generalizing fs with
  | nil => exact ⟨fs, rfl, rfl, by simp⟩
  | cons d rest ih =>
    by_cases hex : pathExists fs (.revision d.revision)
    · obtain ⟨fs', h1, h2, h3⟩ := ih (removeEntry fs (.revision d.revision))
      refine ⟨fs', ?_, by rw [h2]; rfl, ?_⟩
      · simpa [removeOldDirs, hex] using h1
      · intro n
        rw [h3 n, fsGet_removeEntry, List.map_cons]
        by_cases hr : n ∈ rest.map (fun d => EntryName.revision d.revision)
        · rw [if_pos hr, if_pos (List.mem_cons_of_mem _ hr)]
        · by_cases hd : n = EntryName.revision d.revision
          · rw [if_neg hr, if_pos hd.symm, if_pos (by rw [hd]; exact List.mem_cons_self _ _)]
          · rw [if_neg hr, if_neg (fun h => hd h.symm),
              if_neg (by rw [List.mem_cons]; exact not_or.mpr ⟨hd, hr⟩)]
    · obtain ⟨fs', h1, h2, h3⟩ := ih fs
      refine ⟨fs', ?_, h2, ?_⟩
      · simpa [removeOldDirs, hex] using h1
      · intro n
        rw [h3 n, List.map_cons]
        by_cases hr : n ∈ rest.map (fun d => EntryName.revision d.revision)
        · rw [if_pos hr, if_pos (List.mem_cons_of_mem _ hr)]
        · by_cases hd : n = EntryName.revision d.revision
          · rw [if_neg hr, if_pos (by rw [hd]; exact List.mem_cons_self _ _), hd,
              pathExists_false_get fs _ (by simpa using hex)]
          · rw [if_neg hr, if_neg (by rw [List.mem_cons]; exact not_or.mpr ⟨hd, hr⟩)]

theorem removeOldDirs_ok_entries (rf : RsyncRevision → Bool)
    (l : List DeprecatedRsyncRevision) (fs fs' : FileSystem)
    (h : removeOldDirs rf l fs = .ok () fs') :
    fs'.stateFile = fs.stateFile ∧
    ∀ n, fsGet fs'.entries n = fsGet fs.entries n ∨
      (n ∈ l.map (fun d => EntryName.revision d.revision) ∧ fsGet fs'.entries n = none) := by
  induction l generalizing fs with
  | nil =>
    cases h
    exact ⟨rfl, fun n => Or.inl rfl⟩
  | cons d rest ih =>
    by_cases hex : pathExists fs (.revision d.revision)
    · by_cases hrf : rf d.revision = true
      · simp [removeOldDirs, hex, hrf] at h
      · have h' : removeOldDirs rf rest (removeEntry fs (.revision d.revision)) = .ok () fs' := by
          simpa [removeOldDirs, hex, hrf] using h
        obtain ⟨h2, h3⟩ := ih _ h'
        refine ⟨by rw [h2]; rfl, fun n => ?_⟩
        rcases h3 n with hsame | ⟨hmem, hnone⟩
        · rw [fsGet_removeEntry] at hsame
          by_cases hd : EntryName.revision d.revision = n
          · refine Or.inr ⟨?_, by rwa [if_pos hd] at hsame⟩
            rw [List.map_cons, ← hd]
            exact List.mem_cons_self _ _
          · exact Or.inl (by rwa [if_neg hd] at hsame)
        · exact Or.inr ⟨by rw [List.map_cons]; exact List.mem_cons_of_mem _ hmem, hnone⟩
    · have h' : removeOldDirs rf rest fs = .ok () fs' := by
        simpa [removeOldDirs, hex] using h
      obtain ⟨h2, h3⟩ := ih _ h'
      refine ⟨h2, fun n => ?_⟩
      rcases h3 n with hsame | ⟨hmem, hnone⟩
      · exact Or.inl hsame
      · exact Or.inr ⟨by rw [List.map_cons]; exact List.mem_cons_of_mem _ hmem, hnone⟩

theorem removeOldDirs_error_entries (rf : RsyncRevision → Bool)
    (l : List DeprecatedRsyncRevision) (fs fs' : FileSystem) (e : String)
    (h : removeOldDirs rf l fs = .error e fs') :
    fs'.stateFile = fs.stateFile ∧
    ∀ n, fsGet fs'.entries n = fsGet fs.entries n ∨ fsGet fs'.entries n = none := by
  induction l generalizing fs with
  | nil => cases h
  | cons d rest ih =>
    by_cases hex : pathExists fs (.revision d.revision)
    · by_cases hrf : rf d.revision = true
      · have : fs' = fs := by
          simp [removeOldDirs, hex, hrf] at h
          exact h.2.symm
        subst this
        exact ⟨rfl, fun n => Or.inl rfl⟩
      · have h' : removeOldDirs rf rest (removeEntry fs (.revision d.revision)) = .error e fs' := by
          simpa [removeOldDirs, hex, hrf] using h
        obtain ⟨h2, h3⟩ := ih _ h'
        refine ⟨by rw [h2]; rfl, fun n => ?_⟩
        rcases h3 n with hsame | hnone
        · rw [fsGet_removeEntry] at hsame
          by_cases hd : EntryName.revision d.revision = n
          · exact Or.inr (by simp [hd] at hsame; exact hsame)
          · exact Or.inl (by simpa [hd] using hsame)
        · exact Or.inr hnone
    · have h' : removeOldDirs rf rest fs = .error e fs' := by
        simpa [removeOldDirs, hex] using h
      exact ih _ h'

theorem clean_old_all_ok (st : RsyncDirState) (config : Config) (now : Time)
    (fs : FileSystem) :
    ∃ fs', st.clean_old config now (fun _ => false) fs =
        .ok { st with
          old := st.old.filter fun d =>
            decide (d.since > Time.seconds_ago now config.cleanup_after) } fs' ∧
      fs'.stateFile = fs.stateFile ∧
      ∀ n, fsGet fs'.entries n =
        if n ∈ (st.old.filter fun d =>
            decide (d.since < Time.seconds_ago now config.cleanup_after)).map
            (fun d => EntryName.revision d.revision) then none
        else fsGet fs.entries n := by
  obtain ⟨fs', h1, h2, h3⟩ := removeOldDirs_all_ok
    (st.old.filter fun d => decide (d.since < Time.seconds_ago now config.cleanup_after)) fs
  refine ⟨fs', ?_, h2, h3⟩
  simp only [RsyncDirState.clean_old, h1]

theorem clean_old_ok_inv (st : RsyncDirState) (config : Config) (now : Time)
    (rf : RsyncRevision → Bool) (fs : FileSystem) (st' : RsyncDirState) (fs' : FileSystem)
    (h : st.clean_old config now rf fs = .ok st' fs') :
    st' = { st with
      old := st.old.filter fun d =>
        decide (d.since > Time.seconds_ago now config.cleanup_after) } ∧
    fs'.stateFile = fs.stateFile ∧
    ∀ n, fsGet fs'.entries n = fsGet fs.entries n ∨
      (n ∈ (st.old.filter fun d =>
          decide (d.since < Time.seconds_ago now config.cleanup_after)).map
          (fun d => EntryName.revision d.revision) ∧ fsGet fs'.entries n = none) := by
  simp only [RsyncDirState.clean_old] at h
  split at h
  · cases h
  · rename_i fs1 heq
    cases h
    obtain ⟨h2, h3⟩ := removeOldDirs_ok_entries _ _ _ _ heq
    exact ⟨rfl, h2, h3⟩

theorem clean_old_error_inv (st : RsyncDirState) (config : Config) (now : Time)
    (rf : RsyncRevision → Bool) (fs : FileSystem) (e : String) (fs' : FileSystem)
    (h : st.clean_old config now rf fs = .error e fs') :
    fs'.stateFile = fs.stateFile := by
  simp only [RsyncDirState.clean_old] at h
  split at h
  · rename_i e1 fs1 heq
    cases h
    exact (removeOldDirs_error_entries _ _ _ _ _ heq).1
  · cases h

theorem current_not_mem_revision_map (l : List DeprecatedRsyncRevision) :
    EntryName.current ∉ l.map (fun d => EntryName.revision d.revision) := by
  simp [List.mem_map]

theorem currentTmp_not_mem_revision_map (l : List DeprecatedRsyncRevision) :
    EntryName.currentTmp ∉ l.map (fun d => EntryName.revision d.revision) := by
  simp [List.mem_map]

/-- The filesystem carried by an FsResult, at success or at failure. -/
def FsResult.fsOf {α : Type} : FsResult α → FileSystem
  | .ok _ fs => fs
  | .error _ fs => fs

theorem stateFile_fsOf_renameEntry (src dst : EntryName) (fs : FileSystem) :
    (renameEntry src dst fs).fsOf.stateFile = fs.stateFile := by
  unfold renameEntry
  split
  · rfl
  · split <;> rfl

theorem removeLingering_stateFile (fs : FileSystem) :
    (removeLingering fs).stateFile = fs.stateFile := by
  unfold removeLingering
  cases pathExists fs .currentTmp <;> rfl

theorem removeLingering_tmp_none (fs : FileSystem) :
    fsGet (removeLingering fs).entries .currentTmp = none := by
  unfold removeLingering
  cases hex : pathExists fs EntryName.currentTmp with
  | true => rw [fsGet_removeEntry, if_pos rfl]
  | false => exact pathExists_false_get fs _ hex

theorem removeLingering_get_ne (fs : FileSystem) (n : EntryName)
    (h : ¬n = EntryName.currentTmp) :
    fsGet (removeLingering fs).entries n = fsGet fs.entries n := by
  unfold removeLingering
  cases hex : pathExists fs EntryName.currentTmp with
  | true => rw [fsGet_removeEntry, if_neg (fun hh => h hh.symm)]
  | false => rfl

theorem stateFile_fsOf_symlink (new_revision : RsyncRevision) (fs : FileSystem) :
    (symlink_current_to_new_revision_dir new_revision fs).fsOf.stateFile = fs.stateFile := by
  unfold symlink_current_to_new_revision_dir
  rw [removeLingering_tmp_none]
  show (renameEntry EntryName.currentTmp EntryName.current
    (setEntry (removeLingering fs) EntryName.currentTmp
      (FsEntry.symlink new_revision.dir_name))).fsOf.stateFile = fs.stateFile
  rw [stateFile_fsOf_renameEntry, stateFile_setEntry, removeLingering_stateFile]

theorem stateFile_fsOf_backup (st : RsyncDirState) (fs : FileSystem) :
    (backupCurrentDir st fs).fsOf.stateFile = fs.stateFile := by
  unfold backupCurrentDir
  cases st.current with
  | none => rfl
  | some current =>
    cases pathExists fs EntryName.current with
    | true => rw [stateFile_fsOf_renameEntry]
    | false => rfl

theorem stateFile_fsOf_rename_new (new_revision : RsyncRevision) (st : RsyncDirState)
    (fs : FileSystem) :
    (rename_new_revision_dir_to_current new_revision st fs).fsOf.stateFile = fs.stateFile := by
  unfold rename_new_revision_dir_to_current
  cases hb : backupCurrentDir st fs with
  | error e fs1 =>
    have h1 := stateFile_fsOf_backup st fs
    rw [hb] at h1
    exact h1
  | ok u fs1 =>
    cases u
    have h1 := stateFile_fsOf_backup st fs
    rw [hb] at h1
    show (renameEntry (EntryName.revision new_revision) EntryName.current fs1).fsOf.stateFile
      = fs.stateFile
    rw [stateFile_fsOf_renameEntry]
    exact h1

theorem stateFile_writeBuf (fs : FileSystem) (rev : RsyncRevision) (relPath : String)
    (data : List Nat) : (writeBuf fs rev relPath data).stateFile = fs.stateFile := by
  unfold writeBuf
  split <;> rfl

theorem stateFile_write_rsync_content (out : RsyncRevision) (elements : List CurrentObject)
    (fs : FileSystem) : (write_rsync_content out elements fs).stateFile = fs.stateFile := by
  induction elements generalizing fs with
  | nil => rfl
  | cons el rest ih =>
    simp only [write_rsync_content, List.foldl_cons] at *
    rw [ih, stateFile_writeBuf]

theorem stateFile_fsOf_publishSwitch (new_revision : RsyncRevision)
    (st : RsyncDirState) (config : Config) (fs1 : FileSystem) :
    (publishSwitch new_revision st config fs1).fsOf.stateFile = fs1.stateFile := by
  unfold publishSwitch
  cases config.rsync_dir_use_symlinks with
  | true => exact stateFile_fsOf_symlink _ _
  | false => exact stateFile_fsOf_rename_new _ _ _

theorem stateFile_fsOf_updateStep (new_revision : RsyncRevision)
    (elements : List CurrentObject) (config : Config) (st : RsyncDirState)
    (now : Time) (fs : FileSystem) :
    (updateStep new_revision elements config st now fs).fsOf.stateFile = fs.stateFile := by
  unfold updateStep
  cases hp : publishSwitch new_revision st config
      (write_rsync_content new_revision elements fs) with
  | error e fs2 =>
    have h1 := stateFile_fsOf_publishSwitch new_revision st config
      (write_rsync_content new_revision elements fs)
    rw [hp] at h1
    show fs2.stateFile = fs.stateFile
    rw [show fs2.stateFile = (write_rsync_content new_revision elements fs).stateFile from h1,
      stateFile_write_rsync_content]
  | ok u fs2 =>
    cases u
    have h1 := stateFile_fsOf_publishSwitch new_revision st config
      (write_rsync_content new_revision elements fs)
    rw [hp] at h1
    show fs2.stateFile = fs.stateFile
    rw [show fs2.stateFile = (write_rsync_content new_revision elements fs).stateFile from h1,
      stateFile_write_rsync_content]

theorem update_error_stateFile (session_id serial : Nat) (elements : List CurrentObject)
    (changed : Bool) (config : Config) (now : Time) (rf : RsyncRevision → Bool)
    (fs : FileSystem) (e : String) (fs' : FileSystem)
    (h : update_from_rrdp_state session_id serial elements changed config now rf fs
      = .error e fs') :
    fs'.stateFile = fs.stateFile := by
  unfold update_from_rrdp_state at h
  cases hrec : RsyncDirState.recover fs with
  | error e1 =>
    rw [hrec] at h
    cases h
    rfl
  | ok rsync_state =>
    rw [hrec] at h
    cases changed with
    | false =>
      simp only at h
      split at h
      · rename_i e1 fs1 hclean
        cases h
        exact clean_old_error_inv _ _ _ _ _ _ _ hclean
      · cases h
    | true =>
      simp only at h
      cases hup : updateStep ⟨session_id, serial⟩ elements config rsync_state now fs with
      | error e2 fs2 =>
        rw [hup] at h
        cases h
        have h1 := stateFile_fsOf_updateStep ⟨session_id, serial⟩ elements config
          rsync_state now fs
        rw [hup] at h1
        exact h1
      | ok st1 fs2 =>
        rw [hup] at h
        replace h : (match st1.clean_old config now rf fs2 with
          | FsResult.error e fs3 => FsResult.error e fs3
          | FsResult.ok st2 fs3 => FsResult.ok st2 (st2.persist fs3))
            = FsResult.error e fs' := h
        split at h
        · rename_i e1 fs3 hclean
          cases h
          have h1 := stateFile_fsOf_updateStep ⟨session_id, serial⟩ elements config
            rsync_state now fs
          rw [hup] at h1
          rw [clean_old_error_inv _ _ _ _ _ _ _ hclean]
          exact h1
        · cases h

/-- C2: persisting any ledger value (current none or some, old empty or not)
to the state-file location and then recovering from that location yields a
ledger equal to the original. -/
theorem C2_persist_recover_roundtrip (st : RsyncDirState) (fs : FileSystem) :
    RsyncDirState.recover (st.persist fs) = .ok st := by
  simp only [RsyncDirState.persist, RsyncDirState.recover]
  exact state_fromJson_toJson st

/-- C4: after update_current(B) with current = A, current equals B and old
gains exactly one new entry referencing A whose since stamp (the clock value
now at the call) is at least any time t0 at or before the call; with
current = none, old is unchanged and current becomes B. -/
theorem C4_update_current_bookkeeping (st : RsyncDirState) (B : RsyncRevision)
    (now t0 : Time) (ht : t0 ≤ now) :
    (st.update_current B now).current = some B ∧
    (∀ A, st.current = some A →
      (st.update_current B now).old = st.old ++ [⟨now, A⟩] ∧
      t0 ≤ (⟨now, A⟩ : DeprecatedRsyncRevision).since) ∧
    (st.current = none → (st.update_current B now).old = st.old) := by
  unfold RsyncDirState.update_current
  cases hc : st.current with
  | none =>
    refine ⟨rfl, ?_, fun _ => rfl⟩
    intro A hA
    cases hA
  | some A0 =>
    refine ⟨rfl, ?_, ?_⟩
    · intro A hA
      cases hA
      exact ⟨rfl, ht⟩
    · intro hn
      cases hn

theorem C4_witness :
    (RsyncDirState.update_current ⟨some ⟨1, 1⟩, []⟩ ⟨1, 2⟩ 10).current = some ⟨1, 2⟩ ∧
    (RsyncDirState.update_current ⟨some ⟨1, 1⟩, []⟩ ⟨1, 2⟩ 10).old = [⟨10, ⟨1, 1⟩⟩] := by
  obtain ⟨h1, h2, h3⟩ :=
    C4_update_current_bookkeeping ⟨some ⟨1, 1⟩, []⟩ ⟨1, 2⟩ 10 9 (by decide)
  exact ⟨h1, (h2 ⟨1, 1⟩ rfl).1⟩

/-- C5: recover returns the empty ledger when no state file exists, and
returns the deserialization error (never a silently reset empty ledger) when
the state file exists but its content cannot be deserialized. -/
theorem C5_recover_error_handling (fs : FileSystem) :
    (fs.stateFile = none → RsyncDirState.recover fs = .ok { current := none, old := [] }) ∧
    (∀ j e, fs.stateFile = some j → RsyncDirState.fromJson j = .error e →
      RsyncDirState.recover fs = .error e) := by
  constructor
  · intro h
    simp [RsyncDirState.recover, h]
  · intro j e hj he
    simp [RsyncDirState.recover, hj, he]

theorem C5_witness :
    RsyncDirState.recover ⟨[], none⟩ = .ok { current := none, old := [] } ∧
    RsyncDirState.recover ⟨[], some (Json.str "bad")⟩ = .error "cannot deserialize state" := by
  refine ⟨(C5_recover_error_handling ⟨[], none⟩).1 rfl, ?_⟩
  exact (C5_recover_error_handling ⟨[], some (Json.str "bad")⟩).2 (Json.str "bad")
    "cannot deserialize state" rfl rfl

/-- C1 as stated is false at the boundary: with now = 10 and retention 10 the
cutoff is 0, and an entry with since = 0 is not older than the cutoff, so the
claim requires it to be retained unchanged; but clean_old drops it from the
ledger (while leaving its directory alone), because the removal filter uses
since < cutoff while the retain step keeps only since > cutoff. -/
theorem C1_counterexample :
    ¬ ((0 : Time) < Time.seconds_ago 10 10) ∧
    RsyncDirState.clean_old ⟨none, [⟨0, ⟨1, 1⟩⟩]⟩ ⟨false, 10⟩ 10 (fun _ => false) ⟨[], none⟩
      = .ok ⟨none, []⟩ ⟨[], none⟩ := by
  exact ⟨by decide, rfl⟩

/-- C1 (amended): when removals succeed, clean_old drops from the ledger
exactly the entries with since not strictly newer than the cutoff
now - retention, removes from disk the directory of every entry with since
strictly older than the cutoff, and leaves every other directory (and the
state file) unchanged; in particular an entry with since = cutoff + 1 is
retained untouched, an entry with since = cutoff - 1 is removed from both,
and an entry with since = cutoff exactly is dropped from the ledger while
its directory is left on disk. -/
theorem C1_clean_old_prunes_strictly_older (st : RsyncDirState) (config : Config)
    (now : Time) (fs : FileSystem) :
    ∃ fs', st.clean_old config now (fun _ => false) fs =
        .ok { st with
          old := st.old.filter fun d =>
            decide (d.since > Time.seconds_ago now config.cleanup_after) } fs' ∧
      (∀ d ∈ st.old, d.since < Time.seconds_ago now config.cleanup_after →
        fsGet fs'.entries (.revision d.revision) = none) ∧
      (∀ n, (∀ d ∈ st.old, ¬(d.since < Time.seconds_ago now config.cleanup_after ∧
          EntryName.revision d.revision = n)) →
        fsGet fs'.entries n = fsGet fs.entries n) ∧
      fs'.stateFile = fs.stateFile := by
  obtain ⟨fs', h1, h2, h3⟩ := clean_old_all_ok st config now fs
  refine ⟨fs', h1, ?_, ?_, h2⟩
  · intro d hd hlt
    rw [h3]
    exact if_pos (List.mem_map.mpr
      ⟨d, List.mem_filter.mpr ⟨hd, by simpa using hlt⟩, rfl⟩)
  · intro n hn
    rw [h3]
    refine if_neg ?_
    intro hmem
    obtain ⟨d, hdf, hdn⟩ := List.mem_map.mp hmem
    obtain ⟨hd, hdec⟩ := List.mem_filter.mp hdf
    exact hn d hd ⟨by simpa using hdec, hdn⟩

theorem C1_witness :
    ∃ fs', RsyncDirState.clean_old ⟨none, [⟨-1, ⟨1, 1⟩⟩, ⟨1, ⟨2, 2⟩⟩]⟩ ⟨false, 10⟩ 10
        (fun _ => false)
        ⟨[(.revision ⟨1, 1⟩, .dir []), (.revision ⟨2, 2⟩, .dir [])], none⟩
      = .ok ⟨none, [⟨1, ⟨2, 2⟩⟩]⟩ fs' ∧
      fsGet fs'.entries (.revision ⟨1, 1⟩) = none ∧
      fsGet fs'.entries (.revision ⟨2, 2⟩) = some (.dir []) := by
  obtain ⟨fs', h1, h2, h3, h4⟩ := C1_clean_old_prunes_strictly_older
    ⟨none, [⟨-1, ⟨1, 1⟩⟩, ⟨1, ⟨2, 2⟩⟩]⟩ ⟨false, 10⟩ 10
    ⟨[(.revision ⟨1, 1⟩, .dir []), (.revision ⟨2, 2⟩, .dir [])], none⟩
  refine ⟨fs', h1, ?_, ?_⟩
  · exact h2 ⟨-1, ⟨1, 1⟩⟩ (List.mem_cons_self _ _) (by decide)
  · exact (h3 (.revision ⟨2, 2⟩) (by decide)).trans rfl

/-- C9 as stated is false: update_current does not check that the new
revision is fresh, so updating with the revision that is already current
puts that revision into old while it still equals current, violating the
invariant on a state that satisfied it before the call. -/
theorem C9_counterexample :
    Invariant ⟨some ⟨1, 1⟩, []⟩ ∧
    ¬ Invariant (RsyncDirState.update_current ⟨some ⟨1, 1⟩, []⟩ ⟨1, 1⟩ 5) := by
  decide

/-- C9 (amended): the ledger operations preserve the invariant that a
revision identity appears in old at most once and never equals current:
recover after persist preserves it unconditionally, update_current preserves
it provided the new revision differs from current and from every revision in
old, and clean_old and persist preserve it unconditionally (persist does not
change the in-memory ledger, and the ledger it writes is the one recover
returns). -/
theorem C9_operations_preserve_invariant (st : RsyncDirState) (hinv : Invariant st) :
    (∀ fs st', RsyncDirState.recover (st.persist fs) = .ok st' → Invariant st') ∧
    (∀ B now, st.current ≠ some B → (∀ d ∈ st.old, d.revision ≠ B) →
      Invariant (st.update_current B now)) ∧
    (∀ config now rf fs st' fs', st.clean_old config now rf fs = .ok st' fs' →
      Invariant st') := by
  obtain ⟨hnd, hcur⟩ := hinv
  refine ⟨?_, ?_, ?_⟩
  · intro fs st' h
    simp only [RsyncDirState.persist, RsyncDirState.recover,
      state_fromJson_toJson] at h
    cases h
    exact ⟨hnd, hcur⟩
  · intro B now hB hfresh
    unfold RsyncDirState.update_current
    cases hc : st.current with
    | none =>
      refine ⟨hnd, ?_⟩
      intro d hd
      simp only
      intro h
      cases h
      exact hfresh d hd rfl
    | some A =>
      constructor
      · simp only [List.map_append, List.map_cons, List.map_nil]
        rw [List.nodup_append]
        refine ⟨hnd, List.nodup_singleton A, ?_⟩
        intro x hx hx1
        rw [List.mem_singleton] at hx1
        obtain ⟨d, hd, hdx⟩ := List.mem_map.mp hx
        exact hcur d hd (by rw [hdx, hx1, hc])
      · intro d hd
        simp only
        rw [List.mem_append, List.mem_singleton] at hd
        intro h
        cases h
        rcases hd with hd | hd
        · exact hfresh d hd rfl
        · subst hd
          exact hB (by rw [hc])
  · intro config now rf fs st' fs' h
    obtain ⟨hst, -, -⟩ := clean_old_ok_inv st config now rf fs st' fs' h
    subst hst
    constructor
    · exact hnd.sublist (List.Sublist.map _ (List.filter_sublist _))
    · intro d hd
      exact hcur d (List.mem_filter.mp hd).1

theorem C9_witness :
    Invariant (RsyncDirState.update_current ⟨some ⟨1, 1⟩, [⟨0, ⟨2, 2⟩⟩]⟩ ⟨1, 2⟩ 5) := by
  exact (C9_operations_preserve_invariant ⟨some ⟨1, 1⟩, [⟨0, ⟨2, 2⟩⟩]⟩ (by decide)).2.1
    ⟨1, 2⟩ 5 (by decide) (by decide)

theorem removeOldDirs_all_absent (rf : RsyncRevision → Bool)
    (l : List DeprecatedRsyncRevision) (fs : FileSystem)
    (h : ∀ d ∈ l, fsGet fs.entries (.revision d.revision) = none) :
    removeOldDirs rf l fs = .ok () fs := by
  induction l with
  | nil => rfl
  | cons d rest ih =>
    unfold removeOldDirs
    rw [if_neg ?_]
    · exact ih fun d' hd' => h d' (List.mem_cons_of_mem _ hd')
    · simp [pathExists, h d (List.mem_cons_self _ _)]

/-- C3: a cycle with changed = false leaves current unchanged, creates no new
revision directory (an absent revision directory stays absent, and a present
one is either untouched or only removed by pruning), performs no publication
switch (the stable current path and the temporary symlink name are untouched),
and still runs pruning and then persists the ledger. -/
theorem C3_no_op_stability (session_id serial : Nat) (elements : List CurrentObject)
    (config : Config) (now : Time) (rf : RsyncRevision → Bool) (fs : FileSystem)
    (st0 st' : RsyncDirState) (fs' : FileSystem)
    (hrec : RsyncDirState.recover fs = .ok st0)
    (h : update_from_rrdp_state session_id serial elements false config now rf fs
      = .ok st' fs') :
    st'.current = st0.current ∧
    st'.old = st0.old.filter
      (fun d => decide (d.since > Time.seconds_ago now config.cleanup_after)) ∧
    (∀ r, fsGet fs.entries (.revision r) = none →
      fsGet fs'.entries (.revision r) = none) ∧
    (∀ r, fsGet fs'.entries (.revision r) = fsGet fs.entries (.revision r) ∨
      fsGet fs'.entries (.revision r) = none) ∧
    fsGet fs'.entries EntryName.current = fsGet fs.entries EntryName.current ∧
    fsGet fs'.entries EntryName.currentTmp = fsGet fs.entries EntryName.currentTmp ∧
    fs'.stateFile = some st'.toJson := by
  unfold update_from_rrdp_state at h
  rw [hrec] at h
  replace h : (match st0.clean_old config now rf fs with
    | FsResult.error e fs3 => FsResult.error e fs3
    | FsResult.ok st2 fs3 => FsResult.ok st2 (st2.persist fs3))
      = FsResult.ok st' fs' := h
  cases hclean : st0.clean_old config now rf fs with
  | error e fs3 =>
    rw [hclean] at h
    cases h
  | ok st2 fs3 =>
    rw [hclean] at h
    replace h : FsResult.ok st2 (st2.persist fs3) = FsResult.ok st' fs' := h
    have hst' : st' = st2 := by
      injection h with h1 h2
      exact h1.symm
    have hfs' : fs' = st2.persist fs3 := by
      injection h with h1 h2
      exact h2.symm
    subst hst'
    subst hfs'
    obtain ⟨hst, hsf, hget⟩ := clean_old_ok_inv st0 config now rf fs st' fs3 hclean
    have hget' : ∀ n, fsGet (st'.persist fs3).entries n = fsGet fs3.entries n :=
      fun n => rfl
    subst hst
    refine ⟨rfl, rfl, ?_, ?_, ?_, ?_, rfl⟩
    · intro r hr
      rw [hget']
      rcases hget (.revision r) with hsame | ⟨-, hnone⟩
      · rw [hsame, hr]
      · exact hnone
    · intro r
      rw [hget']
      rcases hget (.revision r) with hsame | ⟨-, hnone⟩
      · exact Or.inl hsame
      · exact Or.inr hnone
    · rw [hget']
      rcases hget EntryName.current with hsame | ⟨hmem, -⟩
      · exact hsame
      · exact absurd hmem (current_not_mem_revision_map _)
    · rw [hget']
      rcases hget EntryName.currentTmp with hsame | ⟨hmem, -⟩
      · exact hsame
      · exact absurd hmem (currentTmp_not_mem_revision_map _)

theorem C3_witness :
    (⟨none, []⟩ : RsyncDirState).current = (⟨none, []⟩ : RsyncDirState).current ∧
    (⟨[], some (RsyncDirState.toJson ⟨none, []⟩)⟩ : FileSystem).stateFile
      = some (RsyncDirState.toJson ⟨none, []⟩) := by
  obtain ⟨h1, h2, h3, h4, h5, h6, h7⟩ := C3_no_op_stability 1 1 [] ⟨false, 10⟩ 10
    (fun _ => false) ⟨[], none⟩ ⟨none, []⟩ ⟨none, []⟩
    ⟨[], some (RsyncDirState.toJson ⟨none, []⟩)⟩ rfl rfl
  exact ⟨h1, h7⟩

theorem removeOldDirs_fails (rf : RsyncRevision → Bool)
    (l : List DeprecatedRsyncRevision) (fs : FileSystem)
    (h : ∃ d ∈ l, pathExists fs (EntryName.revision d.revision) = true ∧
      rf d.revision = true) :
    ∃ e fs', removeOldDirs rf l fs = .error e fs' ∧ fs'.stateFile = fs.stateFile := by
  induction l generalizing fs with
  | nil =>
    obtain ⟨d, hd, -⟩ := h
    cases hd
  | cons d rest ih =>
    by_cases hex : pathExists fs (EntryName.revision d.revision)
    · by_cases hrf : rf d.revision = true
      · refine ⟨"could not remove rsync dir for old revision", fs, ?_, rfl⟩
        unfold removeOldDirs
        rw [if_pos hex, if_pos hrf]
      · obtain ⟨d1, hd1, hp1, hf1⟩ := h
        rw [List.mem_cons] at hd1
        rcases hd1 with rfl | hd1
        · exact absurd hf1 hrf
        · have hne : ¬ (EntryName.revision d.revision = EntryName.revision d1.revision) := by
            simp only [EntryName.revision.injEq]
            intro hrr
            exact hrf (by rw [hrr]; exact hf1)
          have hp2 : pathExists (removeEntry fs (EntryName.revision d.revision))
              (EntryName.revision d1.revision) = true := by
            unfold pathExists
            rw [fsGet_removeEntry, if_neg hne]
            exact hp1
          obtain ⟨e, fs', hrun, hsf⟩ := ih (removeEntry fs (EntryName.revision d.revision))
            ⟨d1, hd1, hp2, hf1⟩
          refine ⟨e, fs', ?_, by rw [hsf]; rfl⟩
          unfold removeOldDirs
          rw [if_pos hex, if_neg hrf]
          exact hrun
    · obtain ⟨d1, hd1, hp1, hf1⟩ := h
      rw [List.mem_cons] at hd1
      rcases hd1 with rfl | hd1
      · exact absurd hp1 (by simpa using hex)
      · obtain ⟨e, fs', hrun, hsf⟩ := ih fs ⟨d1, hd1, hp1, hf1⟩
        refine ⟨e, fs', ?_, hsf⟩
        unfold removeOldDirs
        rw [if_neg hex]
        exact hrun

theorem clean_old_fails (st : RsyncDirState) (config : Config) (now : Time)
    (rf : RsyncRevision → Bool) (fs : FileSystem)
    (h : ∃ d ∈ st.old, d.since < Time.seconds_ago now config.cleanup_after ∧
      pathExists fs (EntryName.revision d.revision) = true ∧ rf d.revision = true) :
    ∃ e fs1, st.clean_old config now rf fs = .error e fs1 ∧
      fs1.stateFile = fs.stateFile := by
  obtain ⟨d, hd, hlt, hp, hf⟩ := h
  obtain ⟨e, fs1, hrun, hsf⟩ := removeOldDirs_fails rf
    (st.old.filter fun deprecated =>
      decide (deprecated.since < Time.seconds_ago now config.cleanup_after)) fs
    ⟨d, List.mem_filter.mpr ⟨hd, by simpa using hlt⟩, hp, hf⟩
  refine ⟨e, fs1, ?_, hsf⟩
  simp only [RsyncDirState.clean_old, hrun]

/-- C6: during pruning, an entry whose directory is already absent is treated
as success and is still dropped from old (for any removal-failure oracle,
since removal is never attempted); whereas an I/O failure while removing the
present directory of an overdue entry makes clean_old fail and makes the
whole cycle fail, in which case the old list is not touched (the retain step
is never reached) and the state file is left exactly as before, so the same
pruning is retried on the next cycle; more generally, every failing cycle
leaves the state file untouched. -/
theorem C6_pruning_error_handling (st : RsyncDirState) (config : Config) (now : Time)
    (rf : RsyncRevision → Bool) (fs : FileSystem) :
    ((∀ d ∈ st.old, d.since < Time.seconds_ago now config.cleanup_after →
        fsGet fs.entries (.revision d.revision) = none) →
      st.clean_old config now rf fs
        = .ok { st with
            old := st.old.filter fun d =>
              decide (d.since > Time.seconds_ago now config.cleanup_after) } fs) ∧
    ((∃ d ∈ st.old, d.since < Time.seconds_ago now config.cleanup_after ∧
        pathExists fs (EntryName.revision d.revision) = true ∧ rf d.revision = true) →
      ∃ e fs1, st.clean_old config now rf fs = .error e fs1 ∧
        fs1.stateFile = fs.stateFile) ∧
    (∀ session_id serial elements st0,
      RsyncDirState.recover fs = .ok st0 →
      (∃ d ∈ st0.old, d.since < Time.seconds_ago now config.cleanup_after ∧
        pathExists fs (EntryName.revision d.revision) = true ∧ rf d.revision = true) →
      ∃ e fs', update_from_rrdp_state session_id serial elements false config now rf fs
          = .error e fs' ∧ fs'.stateFile = fs.stateFile) ∧
    (∀ session_id serial elements changed e fs',
      update_from_rrdp_state session_id serial elements changed config now rf fs
          = .error e fs' →
      fs'.stateFile = fs.stateFile) := by
  refine ⟨?_, ?_, ?_, ?_⟩
  · intro habs
    have hro : removeOldDirs rf (st.old.filter fun deprecated =>
        decide (deprecated.since < Time.seconds_ago now config.cleanup_after)) fs
        = .ok () fs := by
      apply removeOldDirs_all_absent
      intro d hd
      obtain ⟨hdm, hdec⟩ := List.mem_filter.mp hd
      exact habs d hdm (by simpa using hdec)
    simp only [RsyncDirState.clean_old, hro]
  · intro h
    exact clean_old_fails st config now rf fs h
  · intro session_id serial elements st0 hrec h
    obtain ⟨e, fs1, hclean, hsf⟩ := clean_old_fails st0 config now rf fs h
    refine ⟨e, fs1, ?_, hsf⟩
    unfold update_from_rrdp_state
    rw [hrec]
    show (match st0.clean_old config now rf fs with
      | FsResult.error e2 fs3 => FsResult.error e2 fs3
      | FsResult.ok st2 fs3 => FsResult.ok st2 (st2.persist fs3)) = FsResult.error e fs1
    rw [hclean]
  · intro session_id serial elements changed e fs' h
    exact update_error_stateFile session_id serial elements changed config now rf fs e fs' h

theorem C6_witness :
    RsyncDirState.clean_old ⟨none, [⟨-5, ⟨1, 1⟩⟩]⟩ ⟨false, 10⟩ 10 (fun _ => true) ⟨[], none⟩
      = .ok ⟨none, []⟩ ⟨[], none⟩ ∧
    (∃ e fs', update_from_rrdp_state 9 9 [] false ⟨false, 10⟩ 10 (fun _ => true)
        ⟨[(.revision ⟨1, 1⟩, .dir [])],
          some (RsyncDirState.toJson ⟨none, [⟨-5, ⟨1, 1⟩⟩]⟩)⟩
        = .error e fs' ∧
      fs'.stateFile = some (RsyncDirState.toJson ⟨none, [⟨-5, ⟨1, 1⟩⟩]⟩)) := by
  constructor
  · exact (C6_pruning_error_handling ⟨none, [⟨-5, ⟨1, 1⟩⟩]⟩ ⟨false, 10⟩ 10
      (fun _ => true) ⟨[], none⟩).1 (by decide)
  · obtain ⟨e, fs', hrun, hsf⟩ := (C6_pruning_error_handling ⟨none, [⟨-5, ⟨1, 1⟩⟩]⟩
      ⟨false, 10⟩ 10 (fun _ => true)
      ⟨[(.revision ⟨1, 1⟩, .dir [])],
        some (RsyncDirState.toJson ⟨none, [⟨-5, ⟨1, 1⟩⟩]⟩)⟩).2.2.1
      9 9 [] ⟨none, [⟨-5, ⟨1, 1⟩⟩]⟩
      (state_fromJson_toJson ⟨none, [⟨-5, ⟨1, 1⟩⟩]⟩) (by decide)
    exact ⟨e, fs', hrun, hsf.trans rfl⟩

theorem symlink_switch_ok (B : RsyncRevision) (fs : FileSystem)
    (hcur : ∀ files, fsGet fs.entries EntryName.current ≠ some (.dir files)) :
    ∃ fs', symlink_current_to_new_revision_dir B fs = .ok () fs' ∧
      fsGet fs'.entries EntryName.current = some (.symlink B.dir_name) ∧
      fsGet fs'.entries EntryName.currentTmp = none ∧
      (∀ r, fsGet fs'.entries (EntryName.revision r) = fsGet fs.entries (EntryName.revision r)) ∧
      fs'.stateFile = fs.stateFile := by
  have hstep : symlink_current_to_new_revision_dir B fs
      = renameEntry .currentTmp .current
          (setEntry (removeLingering fs) .currentTmp (.symlink B.dir_name)) := by
    unfold symlink_current_to_new_revision_dir
    rw [removeLingering_tmp_none]
  have hsrc : fsGet (setEntry (removeLingering fs) EntryName.currentTmp
      (FsEntry.symlink B.dir_name)).entries EntryName.currentTmp
      = some (.symlink B.dir_name) := by
    rw [fsGet_setEntry, if_pos rfl]
  have hdst : fsGet (setEntry (removeLingering fs) EntryName.currentTmp
      (FsEntry.symlink B.dir_name)).entries EntryName.current
      = fsGet fs.entries EntryName.current := by
    rw [fsGet_setEntry, if_neg (by simp),
      removeLingering_get_ne _ _ (by simp)]
  have hren : renameEntry EntryName.currentTmp EntryName.current
      (setEntry (removeLingering fs) EntryName.currentTmp (FsEntry.symlink B.dir_name))
      = .ok () (setEntry (removeEntry
          (setEntry (removeLingering fs) EntryName.currentTmp (FsEntry.symlink B.dir_name))
          EntryName.currentTmp) EntryName.current (FsEntry.symlink B.dir_name)) := by
    unfold renameEntry
    rw [hsrc, hdst]
    cases hc : fsGet fs.entries EntryName.current with
    | none => rfl
    | some entry =>
      cases entry with
      | dir files => exact absurd hc (hcur files)
      | symlink t => rfl
  refine ⟨_, hstep.trans hren, ?_, ?_, ?_, ?_⟩
  · rw [fsGet_setEntry, if_pos rfl]
  · rw [fsGet_setEntry, if_neg (by simp), fsGet_removeEntry, if_pos rfl]
  · intro r
    rw [fsGet_setEntry, if_neg (by simp), fsGet_removeEntry, if_neg (by simp),
      fsGet_setEntry, if_neg (by simp), removeLingering_get_ne _ _ (by simp)]
  · rw [stateFile_setEntry, stateFile_removeEntry, stateFile_setEntry,
      removeLingering_stateFile]

/-- C8: the symlink-indirection switch (remove lingering temporary symlink,
create a fresh temporary symlink targeting the new revision's directory name,
rename it onto the stable current path) succeeds whenever the stable current
path is not a real directory; afterwards the stable path is a symlink to the
new revision's directory name, the temporary name is gone, and no revision
content directory was removed or renamed (every revision entry is exactly as
before), so old revisions stay addressable by their own names until pruning
deletes them. -/
theorem C8_symlink_strategy_frame (B : RsyncRevision) (fs : FileSystem)
    (hcur : ∀ files, fsGet fs.entries EntryName.current ≠ some (.dir files)) :
    ∃ fs', symlink_current_to_new_revision_dir B fs = .ok () fs' ∧
      fsGet fs'.entries EntryName.current = some (.symlink B.dir_name) ∧
      fsGet fs'.entries EntryName.currentTmp = none ∧
      (∀ r, fsGet fs'.entries (EntryName.revision r) = fsGet fs.entries (EntryName.revision r)) ∧
      fs'.stateFile = fs.stateFile :=
  symlink_switch_ok B fs hcur

theorem C8_witness :
    ∃ fs', symlink_current_to_new_revision_dir ⟨1, 1⟩ ⟨[], none⟩ = .ok () fs' ∧
      fsGet fs'.entries EntryName.current
        = some (.symlink (RsyncRevision.dir_name ⟨1, 1⟩)) := by
  obtain ⟨fs', h1, h2, h3, h4, h5⟩ := C8_symlink_strategy_frame ⟨1, 1⟩ ⟨[], none⟩
    (by intro files h; simp [fsGet] at h)
  exact ⟨fs', h1, h2⟩

/-- C7: in the direct-rename strategy, when the ledger records previous
current revision A and a directory exists at the stable current path, the
switch succeeds leaving the old directory's contents intact under A's own
canonical path (never overwritten or lost) and the new revision B's contents
at the stable current path (never re-labeled away), with B's own path vacated
and every unrelated entry untouched; this is exactly the outcome of renaming
the old current directory away strictly before renaming the new one in. -/
theorem C7_direct_rename_ordering (A B : RsyncRevision) (st : RsyncDirState)
    (fs : FileSystem) (oldFiles newFiles : List (String × List Nat))
    (hA : st.current = some A)
    (hcur : fsGet fs.entries EntryName.current = some (.dir oldFiles))
    (hB : fsGet fs.entries (EntryName.revision B) = some (.dir newFiles))
    (hAfree : fsGet fs.entries (EntryName.revision A) = none)
    (hAB : A ≠ B) :
    ∃ fs', rename_new_revision_dir_to_current B st fs = .ok () fs' ∧
      fsGet fs'.entries (EntryName.revision A) = some (.dir oldFiles) ∧
      fsGet fs'.entries EntryName.current = some (.dir newFiles) ∧
      fsGet fs'.entries (EntryName.revision B) = none ∧
      (∀ n, n ≠ EntryName.current → n ≠ EntryName.revision A → n ≠ EntryName.revision B →
        fsGet fs'.entries n = fsGet fs.entries n) := by
  have hBA : ¬ EntryName.revision B = EntryName.revision A := by
    simp only [EntryName.revision.injEq]
    exact fun h => hAB h.symm
  have hABr : ¬ EntryName.revision A = EntryName.revision B := by
    simp only [EntryName.revision.injEq]
    exact hAB
  have hex : pathExists fs EntryName.current = true := by simp [pathExists, hcur]
  have hback : backupCurrentDir st fs
      = .ok () (setEntry (removeEntry fs EntryName.current) (EntryName.revision A)
          (FsEntry.dir oldFiles)) := by
    unfold backupCurrentDir renameEntry
    simp only [hA, hex, hcur, hAfree]
  have h1B : fsGet (setEntry (removeEntry fs EntryName.current) (EntryName.revision A)
      (FsEntry.dir oldFiles)).entries (EntryName.revision B) = some (.dir newFiles) := by
    rw [fsGet_setEntry, if_neg hABr, fsGet_removeEntry, if_neg (by simp), hB]
  have h1cur : fsGet (setEntry (removeEntry fs EntryName.current) (EntryName.revision A)
      (FsEntry.dir oldFiles)).entries EntryName.current = none := by
    rw [fsGet_setEntry, if_neg (by simp), fsGet_removeEntry, if_pos rfl]
  refine ⟨setEntry (removeEntry
      (setEntry (removeEntry fs EntryName.current) (EntryName.revision A)
        (FsEntry.dir oldFiles)) (EntryName.revision B))
      EntryName.current (FsEntry.dir newFiles), ?_, ?_, ?_, ?_, ?_⟩
  · unfold rename_new_revision_dir_to_current renameEntry
    simp only [hback, h1B, h1cur]
  · rw [fsGet_setEntry, if_neg (by simp), fsGet_removeEntry, if_neg hBA,
      fsGet_setEntry, if_pos rfl]
  · rw [fsGet_setEntry, if_pos rfl]
  · rw [fsGet_setEntry, if_neg (by simp), fsGet_removeEntry, if_pos rfl]
  · intro n hn1 hn2 hn3
    rw [fsGet_setEntry, if_neg (fun h => hn1 h.symm), fsGet_removeEntry,
      if_neg (fun h => hn3 h.symm), fsGet_setEntry, if_neg (fun h => hn2 h.symm),
      fsGet_removeEntry, if_neg (fun h => hn1 h.symm)]

theorem C7_witness :
    ∃ fs', rename_new_revision_dir_to_current ⟨1, 2⟩ ⟨some ⟨1, 1⟩, []⟩
        ⟨[(.current, .dir [("o", [0])]), (.revision ⟨1, 2⟩, .dir [("n", [1])])], none⟩
      = .ok () fs' ∧
      fsGet fs'.entries (.revision ⟨1, 1⟩) = some (.dir [("o", [0])]) ∧
      fsGet fs'.entries EntryName.current = some (.dir [("n", [1])]) := by
  obtain ⟨fs', h1, h2, h3, h4, h5⟩ := C7_direct_rename_ordering ⟨1, 1⟩ ⟨1, 2⟩
    ⟨some ⟨1, 1⟩, []⟩
    ⟨[(.current, .dir [("o", [0])]), (.revision ⟨1, 2⟩, .dir [("n", [1])])], none⟩
    [("o", [0])] [("n", [1])] rfl rfl (by decide) rfl (by decide)
  exact ⟨fs', h1, h2, h3⟩

/-- C10: with an empty object set, write_rsync_content writes nothing and
creates no directory for the revision; consequently, with the revision's
directory absent, the changed-branch of the cycle (updateStep) under the
direct-rename strategy fails with a rename error in every state, including
the normal post-publish states where the stable current path is a real
directory (the cycle aborts); while under the symlink strategy, in that
strategy's own regime where the stable current path is not a real directory,
it succeeds and publishes a symlink at the stable current path pointing at
the nonexistent directory name, leaving it dangling. -/
theorem C10_empty_snapshot (B : RsyncRevision) (st : RsyncDirState) (fs : FileSystem)
    (now : Time) (D : Int)
    (hB : fsGet fs.entries (EntryName.revision B) = none)
    (hne : st.current ≠ some B) :
    write_rsync_content B [] fs = fs ∧
    (∃ e fs1, updateStep B [] ⟨false, D⟩ st now fs = .error e fs1) ∧
    ((∀ files, fsGet fs.entries EntryName.current ≠ some (.dir files)) →
      ∃ fs', updateStep B [] ⟨true, D⟩ st now fs = .ok (st.update_current B now) fs' ∧
        fsGet fs'.entries EntryName.current = some (.symlink B.dir_name) ∧
        fsGet fs'.entries (EntryName.revision B) = none) := by
  refine ⟨rfl, ?_, ?_⟩
  · have hren : ∃ e fs1, rename_new_revision_dir_to_current B st fs = .error e fs1 := by
      cases hb : backupCurrentDir st fs with
      | error e fs1 =>
        exact ⟨e, fs1, by unfold rename_new_revision_dir_to_current; rw [hb]⟩
      | ok u fs1 =>
        cases u
        have hkey : fsGet fs1.entries (EntryName.revision B) = none := by
          unfold backupCurrentDir at hb
          cases hc : st.current with
          | none =>
            simp only [hc] at hb
            cases hb
            exact hB
          | some A =>
            simp only [hc] at hb
            have hABne : ¬ EntryName.revision A = EntryName.revision B := by
              simp only [EntryName.revision.injEq]
              intro h
              exact hne (by rw [hc, h])
            cases hex : pathExists fs EntryName.current with
            | false =>
              simp only [hex] at hb
              cases hb
              exact hB
            | true =>
              simp only [hex] at hb
              unfold renameEntry at hb
              cases hgc : fsGet fs.entries EntryName.current with
              | none =>
                simp only [hgc] at hb
                cases hb
              | some entry =>
                simp only [hgc] at hb
                cases hga : fsGet fs.entries (EntryName.revision A) with
                | none =>
                  simp only [hga] at hb
                  cases hb
                  rw [fsGet_setEntry, if_neg hABne, fsGet_removeEntry,
                    if_neg (by simp), hB]
                | some e2 =>
                  cases e2 with
                  | dir files2 =>
                    simp only [hga] at hb
                    cases hb
                  | symlink t =>
                    simp only [hga] at hb
                    cases hb
                    rw [fsGet_setEntry, if_neg hABne, fsGet_removeEntry,
                      if_neg (by simp), hB]
        refine ⟨"rename: source does not exist", fs1, ?_⟩
        unfold rename_new_revision_dir_to_current renameEntry
        simp only [hb, hkey]
    obtain ⟨e2, fs2, hrw⟩ := hren
    refine ⟨e2, fs2, ?_⟩
    simp only [updateStep, publishSwitch, write_rsync_content, List.foldl_nil, hrw]
  · intro hcur
    obtain ⟨fs', hok, hcur', htmp, hrev, hsf⟩ := symlink_switch_ok B fs hcur
    refine ⟨fs', ?_, hcur', by rw [hrev]; exact hB⟩
    simp only [updateStep, publishSwitch, write_rsync_content, List.foldl_nil, hok]

theorem C10_witness :
    (∃ e fs1, updateStep ⟨1, 2⟩ [] ⟨false, 30⟩ ⟨some ⟨1, 1⟩, []⟩ 10
        ⟨[(.current, .dir [("o", [0])])], none⟩ = .error e fs1) ∧
    (∃ fs', updateStep ⟨1, 2⟩ [] ⟨true, 30⟩ ⟨none, []⟩ 10 ⟨[], none⟩
        = .ok (RsyncDirState.update_current ⟨none, []⟩ ⟨1, 2⟩ 10) fs' ∧
      fsGet fs'.entries EntryName.current
        = some (.symlink (RsyncRevision.dir_name ⟨1, 2⟩)) ∧
      fsGet fs'.entries (EntryName.revision ⟨1, 2⟩) = none) ∧
    write_rsync_content ⟨1, 2⟩ [] ⟨[(.current, .dir [("o", [0])])], none⟩
      = ⟨[(.current, .dir [("o", [0])])], none⟩ := by
  obtain ⟨hw, h2, -⟩ := C10_empty_snapshot ⟨1, 2⟩ ⟨some ⟨1, 1⟩, []⟩
    ⟨[(.current, .dir [("o", [0])])], none⟩ 10 30 (by decide) (by decide)
  obtain ⟨-, -, h3⟩ := C10_empty_snapshot ⟨1, 2⟩ ⟨none, []⟩ ⟨[], none⟩ 10 30 rfl
    (by decide)
  exact ⟨h2, h3 (by intro files h; simp [fsGet] at h), hw⟩

end KrillSync
